import Mathlib

/-!
# Verification of the kakeibo-pwa aggregation and budgeting core

Shallow embedding of the client-side aggregation/budgeting engine of
`src/App.jsx` (a React household-budget application backed by a CRUD
store): the filter engine, the CSV codec for transactions, the budget
evaluator, the month arithmetic used by the budget rollover policy, the
rollover prompt guard, the manual budget-copy action, and the reactive
filter-correction effects.  Month and transaction amounts are exact
integers in the source (whole yen), so JS number arithmetic is modelled
over `Nat`/`Int`/`Rat`.
-/

/-! ## Data model

A transaction as loaded from the `transactions` collection.  Fields are
the loosely-typed strings of the source; `amount` is a whole-yen integer
(the app always stores `Math.abs` of the input, and the schema declares
`integer`), modelled as `Nat`. -/

structure Tx where
  date : String
  amount : Nat
  type : String
  purpose : String
  category : String
  note : String
deriving Repr, DecidableEq

/-- `defaultCategories` from `App.jsx`. -/
def defaultCategories : List String :=
  ["食費", "住居", "交通", "光熱費", "通信", "日用品", "医療", "娯楽", "教育", "その他"]

/-- `incomeCategories` from `App.jsx`. -/
def incomeCategories : List String := ["労働", "投資益", "その他"]

/-- `purposes` from `App.jsx`: (value, label) pairs. -/
def purposes : List (String × String) :=
  [("consumption", "消費"), ("waste", "浪費"), ("investment", "投資")]

/-! ## Filter engine -/

/-- The transient `filters` state object. -/
structure Filters where
  type : String
  purpose : String
  category : String
  query : String
  dateFrom : String
  dateTo : String
deriving Repr, DecidableEq

/-- Models `String.prototype.toLowerCase` (per-character simple lowercase
mapping; the note search only needs it to be a fixed function). -/
def jsToLower (s : String) : String := String.map Char.toLower s

/-- Models `String.prototype.includes`: contiguous substring test. -/
def jsIncludes (hay needle : String) : Bool := decide (needle.data <:+: hay.data)

/-- The predicate of `filteredItems` in `App.jsx` (lines 736-750): an early
`return false` chain over the six filter fields. -/
def passesFilter (fi : Filters) (t : Tx) : Bool :=
  if fi.type ≠ "all" ∧ t.type ≠ fi.type then false
  else if fi.purpose ≠ "all" ∧ t.type = "expense" ∧ t.purpose ≠ fi.purpose then false
  else if fi.category ≠ "all" ∧ t.category ≠ fi.category then false
  else if fi.query ≠ "" ∧ ¬ jsIncludes (jsToLower t.note) (jsToLower fi.query) then false
  else if fi.dateFrom ≠ "" ∧ t.date < fi.dateFrom then false
  else if fi.dateTo ≠ "" ∧ fi.dateTo < t.date then false
  else true

/-- `filteredItems`: `monthItems.filter(...)`. -/
def filteredItems (fi : Filters) (items : List Tx) : List Tx :=
  items.filter (passesFilter fi)

/-- The guard chain of `passesFilter`, unfolded into a conjunction. -/
lemma passesFilter_iff (fi : Filters) (t : Tx) :
    passesFilter fi t = true ↔
      (fi.type = "all" ∨ t.type = fi.type) ∧
      (fi.purpose = "all" ∨ t.type ≠ "expense" ∨ t.purpose = fi.purpose) ∧
      (fi.category = "all" ∨ t.category = fi.category) ∧
      (fi.query = "" ∨ jsIncludes (jsToLower t.note) (jsToLower fi.query) = true) ∧
      (fi.dateFrom = "" ∨ ¬ t.date < fi.dateFrom) ∧
      (fi.dateTo = "" ∨ ¬ fi.dateTo < t.date) := by
  unfold passesFilter
  split_ifs with h1 h2 h3 h4 h5 h6 <;> simp_all <;> tauto

/-- Filtering with a pointwise weaker predicate yields a supersequence. -/
lemma filter_sublist_of_imp {α : Type} (p q : α → Bool) (l : List α)
    (h : ∀ a, p a = true → q a = true) : List.Sublist (l.filter p) (l.filter q) := by
  induction l with
  | nil => simp
  | cons a l ih =>
    rw [List.filter_cons, List.filter_cons]
    by_cases hp : p a = true
    · rw [if_pos hp, if_pos (h a hp)]
      exact ih.cons₂ a
    · rw [if_neg hp]
      by_cases hq : q a = true
      · rw [if_pos hq]; exact ih.cons a
      · rw [if_neg hq]; exact ih

/-- **C1.** For every list of transactions and every filter, the filtered
result is a subsequence of the input list, and replacing any single
predicate of the filter (type, purpose, category, free-text query,
date-from, date-to) by its pass-all/empty value yields a result set that
is a superset of (or equal to) the original filtered result. -/
theorem filteredItems_subset_and_relax_monotone (fi : Filters) (items : List Tx) :
    List.Sublist (filteredItems fi items) items ∧
    List.Sublist (filteredItems fi items) (filteredItems { fi with type := "all" } items) ∧
    List.Sublist (filteredItems fi items) (filteredItems { fi with purpose := "all" } items) ∧
    List.Sublist (filteredItems fi items) (filteredItems { fi with category := "all" } items) ∧
    List.Sublist (filteredItems fi items) (filteredItems { fi with query := "" } items) ∧
    List.Sublist (filteredItems fi items) (filteredItems { fi with dateFrom := "" } items) ∧
    List.Sublist (filteredItems fi items) (filteredItems { fi with dateTo := "" } items) := by
  refine ⟨List.filter_sublist items, ?_, ?_, ?_, ?_, ?_, ?_⟩
  all_goals refine filter_sublist_of_imp _ _ items (fun t ht => ?_)
  all_goals rw [passesFilter_iff] at ht ⊢
  · exact ⟨Or.inl rfl, ht.2⟩
  · exact ⟨ht.1, Or.inl rfl, ht.2.2⟩
  · exact ⟨ht.1, ht.2.1, Or.inl rfl, ht.2.2.2⟩
  · exact ⟨ht.1, ht.2.1, ht.2.2.1, Or.inl rfl, ht.2.2.2.2⟩
  · exact ⟨ht.1, ht.2.1, ht.2.2.1, ht.2.2.2.1, Or.inl rfl, ht.2.2.2.2.2⟩
  · exact ⟨ht.1, ht.2.1, ht.2.2.1, ht.2.2.2.1, ht.2.2.2.2.1, Or.inl rfl⟩

/-! ## CSV codec

Strings are handled as their character lists.  `parseCsv` is the quote-aware
line/field splitter of `App.jsx` (lines 59-87); the encoder is the row
construction of `downloadCsv` (lines 507-529). -/

/-- The whitespace class removed by `String.prototype.trim` (ASCII whitespace
plus the Unicode space separators and BOM). -/
def isJsSpace (c : Char) : Bool :=
  c = ' ' ∨ c = '\t' ∨ c = '\n' ∨ c = '\r' ∨
  c = Char.ofNat 0x0b ∨ c = Char.ofNat 0x0c ∨ c = Char.ofNat 0xa0 ∨
  c = Char.ofNat 0x1680 ∨ (0x2000 ≤ c.toNat ∧ c.toNat ≤ 0x200a) ∨
  c = Char.ofNat 0x2028 ∨ c = Char.ofNat 0x2029 ∨ c = Char.ofNat 0x202f ∨
  c = Char.ofNat 0x205f ∨ c = Char.ofNat 0x3000 ∨ c = Char.ofNat 0xfeff

/-- `String.prototype.trim`: strip `isJsSpace` characters from both ends. -/
def jsTrim (l : List Char) : List Char :=
  ((l.dropWhile isJsSpace).reverse.dropWhile isJsSpace).reverse

/-- `text.split(/\r?\n/)`: split on `\n`, consuming one `\r` directly before
it; a lone `\r` is an ordinary character. -/
def splitLinesAux : List Char → List Char → List (List Char)
  | cur, [] => [cur]
  | cur, '\r' :: '\n' :: rest => cur :: splitLinesAux [] rest
  | cur, '\n' :: rest => cur :: splitLinesAux [] rest
  | cur, c :: rest => splitLinesAux (cur ++ [c]) rest

/-- The per-line field scanner of `parseCsv`: `current` accumulates the cell,
`inQ` is the `inQuotes` flag; `""` inside quotes is a literal quote, a bare
quote toggles the flag, an unquoted comma ends the cell. -/
def parseCellsAux : Bool → List Char → List Char → List (List Char)
  | _, cur, [] => [cur]
  | true, cur, '"' :: '"' :: rest => parseCellsAux true (cur ++ ['"']) rest
  | inQ, cur, '"' :: rest => parseCellsAux (!inQ) cur rest
  | false, cur, ',' :: rest => cur :: parseCellsAux false [] rest
  | inQ, cur, c :: rest => parseCellsAux inQ (cur ++ [c]) rest

/-- `parseCsv` from `App.jsx`: split into lines, drop blank lines, scan each
line into cells, trim every cell. -/
def parseCsv (text : List Char) : List (List (List Char)) :=
  ((splitLinesAux [] text).filter (fun line => jsTrim line ≠ [])).map
    (fun line => (parseCellsAux false [] line).map jsTrim)

/-- `String(cell).replace(/"/g, '""')`: double every quote. -/
def escapeQuotes : List Char → List Char
  | [] => []
  | c :: cs => if c = '"' then '"' :: '"' :: escapeQuotes cs else c :: escapeQuotes cs

/-- One encoded cell: wrapped in quotes with embedded quotes doubled. -/
def encodeCell (cell : List Char) : List Char := '"' :: (escapeQuotes cell ++ ['"'])

/-- `Array.prototype.join` with a one-character separator. -/
def joinChar (sep : Char) : List (List Char) → List Char
  | [] => []
  | [x] => x
  | x :: xs => x ++ sep :: joinChar sep xs

/-- One encoded CSV row: quoted cells joined with commas. -/
def encodeRow (cells : List (List Char)) : List Char :=
  joinChar ',' (cells.map encodeCell)

/-- `'0' + d` for a decimal digit. -/
def digitToChar (d : Nat) : Char := Char.ofNat (48 + d)

/-- Decimal digits of `n`, most significant first (`fuel ≥ n` suffices);
models `String(amount)` for the non-negative integer amounts of the app. -/
def natToCharsAux : Nat → Nat → List Char
  | 0, _ => []
  | fuel + 1, n => if n = 0 then [] else natToCharsAux fuel (n / 10) ++ [digitToChar (n % 10)]

/-- `String(n)` for a natural number `n`. -/
def natToChars (n : Nat) : List Char := if n = 0 then ['0'] else natToCharsAux n n

/-- `'0'..'9'` back to its value. -/
def charToDigit (c : Char) : Option Nat :=
  if '0' ≤ c ∧ c ≤ '9' then some (c.toNat - 48) else none

/-- Models `Number(cell)` on the cells relevant to the import path: the empty
string is 0 (as in JS), a string of decimal digits is its value, anything
else is NaN (`none`).  (Signs, fractions and exponents never occur in the
encoder's output and are not modelled.) -/
def parseDigitsAux : Nat → List Char → Option Nat
  | acc, [] => some acc
  | acc, c :: cs =>
    match charToDigit c with
    | some d => parseDigitsAux (acc * 10 + d) cs
    | none => none

/-- `Number(cell)` (see `parseDigitsAux`). -/
def jsNumber (l : List Char) : Option Nat := parseDigitsAux 0 l

/-- `purposes.find((p) => p.value === v)?.label || '消費'`. -/
def purposeLabel (v : String) : String :=
  (((purposes.find? (fun p => p.1 = v)).map Prod.snd).getD "消費")

/-- `purposeFromLabel` from `App.jsx`: label back to value, default
`consumption`. -/
def purposeFromLabel (label : String) : String :=
  (((purposes.find? (fun p => p.2 = label)).map Prod.fst).getD "consumption")

/-- The transaction CSV header `['日付','種別','分類','カテゴリ','メモ','金額']`. -/
def csvHeader : List (List Char) :=
  [("日付" : String).data, ("種別" : String).data, ("分類" : String).data,
   ("カテゴリ" : String).data, ("メモ" : String).data, ("金額" : String).data]

/-- The cell row of one transaction in `downloadCsv`. -/
def rowOfTx (t : Tx) : List (List Char) :=
  [t.date.data,
   (if t.type = "income" then ("収入" : String) else ("支出" : String)).data,
   (if t.type = "income" then ("収入" : String) else purposeLabel t.purpose).data,
   t.category.data,
   t.note.data,
   natToChars t.amount]

/-- The full CSV text produced by `downloadCsv` for a transaction list:
header row plus one row per transaction, joined with `\n`. -/
def transactionsCsv (txs : List Tx) : List Char :=
  joinChar '\n' ((csvHeader :: txs.map rowOfTx).map encodeRow)

/-- One imported transaction as built by `handleImport` (owner field
omitted). -/
structure TxPayload where
  date : String
  type : String
  purpose : String
  category : String
  note : String
  amount : Nat
deriving Repr, DecidableEq

/-- The per-row mapping of `handleImport` for the `transactions` kind:
destructure the row, derive type/purpose from the labels, drop the row if
the date is missing or the amount is NaN, default an empty category. -/
def rowToTx (row : List (List Char)) : Option TxPayload :=
  let date := (row.get? 0).getD []
  let typeLabel := (row.get? 1).getD []
  let purposeLabel2 := (row.get? 2).getD []
  let category := (row.get? 3).getD []
  let note := (row.get? 4).getD []
  let ty : String := if typeLabel = ("収入" : String).data then "income" else "expense"
  let purpose : String :=
    if ty = "income" then "consumption" else purposeFromLabel (String.mk purposeLabel2)
  match row.get? 5 with
  | none => none
  | some amountCell =>
    match jsNumber amountCell with
    | none => none
    | some amount =>
      if date = [] then none
      else
        some
          { date := String.mk date
            type := ty
            purpose := purpose
            category :=
              if category = [] then (if ty = "income" then "労働" else "食費")
              else String.mk category
            note := String.mk note
            amount := amount }

/-- The `transactions` branch of `handleImport`: parse the CSV, require more
than one row, check the header's first cell, drop rows with no non-empty
cell, map the rest through `rowToTx`, and fail if nothing is importable. -/
def importTransactions (text : List Char) : Option (List TxPayload) :=
  let rows := parseCsv text
  if rows.length ≤ 1 then none
  else
    match rows with
    | [] => none
    | header :: rest =>
      let body := rest.filter (fun row => row.any (fun cell => !cell.isEmpty))
      if header.get? 0 ≠ some ("日付" : String).data then none
      else
        let payload := body.filterMap rowToTx
        if payload.isEmpty then none else some payload

/-! ### CSV codec round-trip lemmas -/

/-- Characters of an escaped cell come from the cell or are quotes. -/
lemma mem_escapeQuotes {a : Char} : ∀ l : List Char, a ∈ escapeQuotes l → a ∈ l ∨ a = '"' := by
  intro l
  induction l with
  | nil => simp [escapeQuotes]
  | cons c cs ih =>
    intro h
    by_cases hc : c = '"'
    · subst hc
      simp [escapeQuotes] at h
      by_cases ha : a = '"'
      · exact Or.inr ha
      · have h3 : a ∈ escapeQuotes cs := by tauto
        rcases ih h3 with h2 | h2
        · exact Or.inl (List.mem_cons_of_mem _ h2)
        · exact Or.inr h2
    · simp only [escapeQuotes, if_neg hc, List.mem_cons] at h
      rcases h with h | h
      · exact Or.inl (List.mem_cons.mpr (Or.inl h))
      · rcases ih h with h2 | h2
        · exact Or.inl (List.mem_cons_of_mem _ h2)
        · exact Or.inr h2

/-- Characters of a joined list come from a part or are the separator. -/
lemma mem_joinChar {a sep : Char} : ∀ ls : List (List Char),
    a ∈ joinChar sep ls → a = sep ∨ ∃ l ∈ ls, a ∈ l := by
  intro ls
  induction ls with
  | nil => simp [joinChar]
  | cons x xs ih =>
    cases xs with
    | nil =>
      intro h
      right; exact ⟨x, by simp, by simpa [joinChar] using h⟩
    | cons y ys =>
      intro h
      rw [show joinChar sep (x :: y :: ys) = x ++ sep :: joinChar sep (y :: ys) from rfl] at h
      rcases List.mem_append.mp h with h | h
      · right; exact ⟨x, by simp, h⟩
      · rcases List.mem_cons.mp h with h | h
        · left; exact h
        · rcases ih h with h2 | ⟨l, hl, hal⟩
          · left; exact h2
          · right; exact ⟨l, List.mem_cons_of_mem _ hl, hal⟩

/-- Characters of an encoded row come from its cells or are quote/comma. -/
lemma mem_encodeRow {a : Char} (cells : List (List Char)) (h : a ∈ encodeRow cells) :
    a = ',' ∨ a = '"' ∨ ∃ cell ∈ cells, a ∈ cell := by
  rcases mem_joinChar _ h with h2 | ⟨l, hl, hal⟩
  · left; exact h2
  · rcases List.mem_map.mp hl with ⟨cell, hcell, rfl⟩
    rcases List.mem_cons.mp hal with h3 | h3
    · right; left; exact h3
    · rcases List.mem_append.mp h3 with h4 | h4
      · rcases mem_escapeQuotes _ h4 with h5 | h5
        · right; right; exact ⟨cell, hcell, h5⟩
        · right; left; exact h5
      · right; left; simpa using h4

/-- Scanning a newline-free line appends it to the accumulator. -/
lemma splitLinesAux_no_newline : ∀ (r cur : List Char), '\n' ∉ r → '\r' ∉ r →
    splitLinesAux cur r = [cur ++ r] := by
  intro r
  induction r with
  | nil => intro cur _ _; simp [splitLinesAux]
  | cons c rest ih =>
    intro cur hn hcr
    have hc1 : c ≠ '\n' := fun h => hn (by simp [h])
    have hc2 : c ≠ '\r' := fun h => hcr (by simp [h])
    rw [show splitLinesAux cur (c :: rest) = splitLinesAux (cur ++ [c]) rest by
      simp [splitLinesAux, hc1, hc2]]
    rw [ih _ (fun h => hn (List.mem_cons_of_mem _ h)) (fun h => hcr (List.mem_cons_of_mem _ h))]
    simp

/-- Scanning up to a `\n` emits the accumulated line. -/
lemma splitLinesAux_append : ∀ (r cur rest : List Char), '\n' ∉ r → '\r' ∉ r →
    splitLinesAux cur (r ++ '\n' :: rest) = (cur ++ r) :: splitLinesAux [] rest := by
  intro r
  induction r with
  | nil => intro cur rest _ _; simp [splitLinesAux]
  | cons c r ih =>
    intro cur rest hn hcr
    have hc1 : c ≠ '\n' := fun h => hn (by simp [h])
    have hc2 : c ≠ '\r' := fun h => hcr (by simp [h])
    rw [List.cons_append]
    rw [show splitLinesAux cur (c :: (r ++ '\n' :: rest)) =
        splitLinesAux (cur ++ [c]) (r ++ '\n' :: rest) by
      simp [splitLinesAux, hc1, hc2]]
    rw [ih _ _ (fun h => hn (List.mem_cons_of_mem _ h)) (fun h => hcr (List.mem_cons_of_mem _ h))]
    simp

/-- Splitting the `\n`-join of newline-free lines recovers the lines. -/
lemma splitLines_joinChar : ∀ (rows : List (List Char)) (r0 : List Char),
    (∀ r ∈ r0 :: rows, '\n' ∉ r ∧ '\r' ∉ r) →
    splitLinesAux [] (joinChar '\n' (r0 :: rows)) = r0 :: rows := by
  intro rows
  induction rows with
  | nil =>
    intro r0 hs
    have h := hs r0 (by simp)
    simpa [joinChar] using splitLinesAux_no_newline r0 [] h.1 h.2
  | cons r1 rows ih =>
    intro r0 hs
    have h0 := hs r0 (by simp)
    rw [show joinChar '\n' (r0 :: r1 :: rows) = r0 ++ '\n' :: joinChar '\n' (r1 :: rows) from rfl]
    rw [splitLinesAux_append _ _ _ h0.1 h0.2]
    rw [ih r1 (fun r hr => hs r (List.mem_cons_of_mem _ hr))]
    simp

/-- `trim` is the identity on lists with no whitespace at all. -/
lemma jsTrim_of_no_space (l : List Char) (h : ∀ c ∈ l, isJsSpace c = false) : jsTrim l = l := by
  have drop_id : ∀ m : List Char, (∀ c ∈ m, isJsSpace c = false) → m.dropWhile isJsSpace = m := by
    intro m hm
    cases m with
    | nil => rfl
    | cons a t => rw [List.dropWhile_cons, if_neg (by simp [hm a (by simp)])]
  unfold jsTrim
  rw [drop_id l h, drop_id l.reverse (fun c hc => h c (List.mem_reverse.mp hc)),
    List.reverse_reverse]

/-- `trim` keeps a line that starts with a quote non-blank. -/
lemma jsTrim_quote_head (l : List Char) : jsTrim ('"' :: l) ≠ [] := by
  unfold jsTrim
  intro h
  rw [List.reverse_eq_nil_iff, List.dropWhile_eq_nil_iff] at h
  have hq : isJsSpace '"' = false := by decide
  have hmem : '"' ∈ List.dropWhile isJsSpace ('"' :: l) := by
    rw [List.dropWhile_cons, if_neg (by simp [hq])]
    simp
  have := h '"' (List.mem_reverse.mpr hmem)
  simp [hq] at this

/-- Scanning an escaped cell inside quotes accumulates exactly the cell and
consumes the closing quote (provided the continuation does not start with a
quote, which in an encoded row it never does). -/
lemma parseCells_escaped : ∀ (cell cur rest : List Char), rest.head? ≠ some '"' →
    parseCellsAux true cur (escapeQuotes cell ++ '"' :: rest) =
      parseCellsAux false (cur ++ cell) rest := by
  intro cell
  induction cell with
  | nil =>
    intro cur rest hr
    simp only [escapeQuotes, List.nil_append, List.append_nil]
    cases rest with
    | nil => simp [parseCellsAux]
    | cons r rs =>
      have hr2 : r ≠ '"' := fun h => hr (by simp [h])
      simp [parseCellsAux, hr2]
  | cons c cs ih =>
    intro cur rest hr
    by_cases hc : c = '"'
    · subst hc
      rw [show escapeQuotes ('"' :: cs) = '"' :: '"' :: escapeQuotes cs by
        simp [escapeQuotes]]
      rw [List.cons_append, List.cons_append]
      rw [show parseCellsAux true cur ('"' :: '"' :: (escapeQuotes cs ++ '"' :: rest)) =
          parseCellsAux true (cur ++ ['"']) (escapeQuotes cs ++ '"' :: rest) by
        simp [parseCellsAux]]
      rw [ih _ _ hr]
      simp
    · rw [show escapeQuotes (c :: cs) = c :: escapeQuotes cs by simp [escapeQuotes, hc]]
      rw [List.cons_append]
      rw [show parseCellsAux true cur (c :: (escapeQuotes cs ++ '"' :: rest)) =
          parseCellsAux true (cur ++ [c]) (escapeQuotes cs ++ '"' :: rest) by
        simp [parseCellsAux, hc]]
      rw [ih _ _ hr]
      simp

/-- Scanning an encoded row recovers exactly its cells. -/
lemma parseCells_encodeRow : ∀ (cs : List (List Char)) (c cur : List Char),
    parseCellsAux false cur (encodeRow (c :: cs)) = (cur ++ c) :: cs := by
  intro cs
  induction cs with
  | nil =>
    intro c cur
    rw [show encodeRow [c] = '"' :: (escapeQuotes c ++ ['"']) from rfl]
    rw [show parseCellsAux false cur ('"' :: (escapeQuotes c ++ ['"'])) =
        parseCellsAux true cur (escapeQuotes c ++ ['"']) by simp [parseCellsAux]]
    have h := parseCells_escaped c cur [] (by simp)
    simpa using h
  | cons c2 cs ih =>
    intro c cur
    rw [show encodeRow (c :: c2 :: cs) =
        '"' :: (escapeQuotes c ++ '"' :: ',' :: encodeRow (c2 :: cs)) by
      simp [encodeRow, encodeCell, joinChar]]
    rw [show parseCellsAux false cur ('"' :: (escapeQuotes c ++ '"' :: ',' :: encodeRow (c2 :: cs))) =
        parseCellsAux true cur (escapeQuotes c ++ '"' :: ',' :: encodeRow (c2 :: cs)) by
      simp [parseCellsAux]]
    rw [parseCells_escaped c cur (',' :: encodeRow (c2 :: cs)) (by simp)]
    rw [show parseCellsAux false (cur ++ c) (',' :: encodeRow (c2 :: cs)) =
        (cur ++ c) :: parseCellsAux false [] (encodeRow (c2 :: cs)) by
      simp [parseCellsAux]]
    rw [ih c2 []]
    simp

/-- A decimal digit character decodes back to its value. -/
lemma charToDigit_digitToChar (d : Nat) (hd : d < 10) :
    charToDigit (digitToChar d) = some d := by
  interval_cases d <;> decide

/-- Every character emitted by `natToCharsAux` is a decimal digit. -/
lemma natToCharsAux_mem : ∀ (fuel n : Nat) (c : Char), c ∈ natToCharsAux fuel n →
    ∃ d, d < 10 ∧ c = digitToChar d := by
  intro fuel
  induction fuel with
  | zero => intro n c hc; simp [natToCharsAux] at hc
  | succ fuel ih =>
    intro n c hc
    by_cases hn : n = 0
    · simp [natToCharsAux, hn] at hc
    · rw [show natToCharsAux (fuel + 1) n =
          natToCharsAux fuel (n / 10) ++ [digitToChar (n % 10)] by
        simp [natToCharsAux, hn]] at hc
      rcases List.mem_append.mp hc with h | h
      · exact ih _ c h
      · refine ⟨n % 10, Nat.mod_lt _ (by norm_num), by simpa using h⟩

/-- `parseDigitsAux` distributes over append. -/
lemma parseDigitsAux_append : ∀ (l1 l2 : List Char) (acc : Nat),
    parseDigitsAux acc (l1 ++ l2) =
      (parseDigitsAux acc l1).bind (fun a => parseDigitsAux a l2) := by
  intro l1
  induction l1 with
  | nil => intro l2 acc; simp [parseDigitsAux]
  | cons c cs ih =>
    intro l2 acc
    rw [List.cons_append]
    rw [show parseDigitsAux acc (c :: (cs ++ l2)) =
        match charToDigit c with
        | some d => parseDigitsAux (acc * 10 + d) (cs ++ l2)
        | none => none from rfl]
    rw [show parseDigitsAux acc (c :: cs) =
        match charToDigit c with
        | some d => parseDigitsAux (acc * 10 + d) cs
        | none => none from rfl]
    cases charToDigit c with
    | none => simp
    | some d => simp [ih]

/-- Parsing the digits of `n` on top of an accumulator. -/
lemma parseDigitsAux_natToCharsAux : ∀ (fuel n acc : Nat), n ≤ fuel →
    parseDigitsAux acc (natToCharsAux fuel n) =
      some (acc * 10 ^ (natToCharsAux fuel n).length + n) := by
  intro fuel
  induction fuel with
  | zero =>
    intro n acc hn
    interval_cases n
    simp [natToCharsAux, parseDigitsAux]
  | succ fuel ih =>
    intro n acc hn
    by_cases h0 : n = 0
    · simp [natToCharsAux, h0, parseDigitsAux]
    · rw [show natToCharsAux (fuel + 1) n =
          natToCharsAux fuel (n / 10) ++ [digitToChar (n % 10)] by
        simp [natToCharsAux, h0]]
      rw [parseDigitsAux_append]
      have hdiv : n / 10 ≤ fuel := by
        have := Nat.div_lt_self (Nat.pos_of_ne_zero h0) (by norm_num : 1 < 10)
        omega
      rw [ih (n / 10) acc hdiv]
      rw [Option.some_bind]
      rw [show parseDigitsAux (acc * 10 ^ (natToCharsAux fuel (n / 10)).length + n / 10)
            [digitToChar (n % 10)] =
          match charToDigit (digitToChar (n % 10)) with
          | some d =>
            parseDigitsAux ((acc * 10 ^ (natToCharsAux fuel (n / 10)).length + n / 10) * 10 + d) []
          | none => none from rfl]
      rw [charToDigit_digitToChar _ (Nat.mod_lt _ (by norm_num))]
      simp only [parseDigitsAux, List.length_append, List.length_cons, List.length_nil]
      congr 1
      have hmod := Nat.div_add_mod n 10
      ring_nf
      omega

/-- `Number(String(n)) = n` for natural `n`. -/
lemma jsNumber_natToChars (n : Nat) : jsNumber (natToChars n) = some n := by
  by_cases hn : n = 0
  · subst hn; decide
  · unfold jsNumber natToChars
    rw [if_neg hn]
    rw [parseDigitsAux_natToCharsAux n n 0 le_rfl]
    simp

/-- A string cell survives the CSV codec if it contains no line break and is
unchanged by trimming. -/
def cellSafe (l : List Char) : Prop := '\n' ∉ l ∧ '\r' ∉ l ∧ jsTrim l = l

instance (l : List Char) : Decidable (cellSafe l) := by
  unfold cellSafe; infer_instance

/-- A transaction whose fields round-trip through the CSV codec: date,
category and note are codec-safe, date and category are non-empty, the type
is one of the two stored values and an expense's purpose is one of the three
stored values. -/
def txCsvSafe (t : Tx) : Prop :=
  cellSafe t.date.data ∧ t.date ≠ "" ∧
  cellSafe t.category.data ∧ t.category ≠ "" ∧
  cellSafe t.note.data ∧
  (t.type = "expense" ∨ t.type = "income") ∧
  (t.type = "expense" → t.purpose = "consumption" ∨ t.purpose = "waste" ∨ t.purpose = "investment")

instance (t : Tx) : Decidable (txCsvSafe t) := by
  unfold txCsvSafe; infer_instance

/-- Every character of `String(n)` is a decimal digit. -/
lemma natToChars_mem (n : Nat) (c : Char) (hc : c ∈ natToChars n) :
    ∃ d, d < 10 ∧ c = digitToChar d := by
  unfold natToChars at hc
  by_cases hn : n = 0
  · rw [if_pos hn] at hc
    exact ⟨0, by norm_num, by simpa using hc⟩
  · rw [if_neg hn] at hc
    exact natToCharsAux_mem n n c hc

/-- Digit characters are not whitespace and not line breaks. -/
lemma digitToChar_props (d : Nat) (hd : d < 10) :
    isJsSpace (digitToChar d) = false ∧ digitToChar d ≠ '\n' ∧ digitToChar d ≠ '\r' := by
  interval_cases d <;> exact ⟨by decide, by decide, by decide⟩

/-- The amount cell is codec-safe. -/
lemma natToChars_cellSafe (n : Nat) : cellSafe (natToChars n) := by
  have hall : ∀ c ∈ natToChars n, isJsSpace c = false ∧ c ≠ '\n' ∧ c ≠ '\r' := by
    intro c hc
    obtain ⟨d, hd, rfl⟩ := natToChars_mem n c hc
    exact digitToChar_props d hd
  refine ⟨fun h => ((hall _ h).2.1 rfl), fun h => ((hall _ h).2.2 rfl), ?_⟩
  exact jsTrim_of_no_space _ (fun c hc => (hall c hc).1)

/-- All cells of a safe transaction's encoded row are codec-safe. -/
lemma rowOfTx_cell_props (t : Tx) (h : txCsvSafe t) :
    ∀ cell ∈ rowOfTx t, cellSafe cell := by
  obtain ⟨hdate, _, hcat, _, hnote, htype, hpurpose⟩ := h
  intro cell hcell
  simp only [rowOfTx, List.mem_cons, List.not_mem_nil, or_false] at hcell
  rcases hcell with rfl | rfl | rfl | rfl | rfl | rfl
  · exact hdate
  · rcases htype with hty | hty <;> rw [hty] <;> decide
  · rcases htype with hty | hty
    · rw [hty]
      rw [if_neg (by decide : ¬("expense" : String) = "income")]
      rcases hpurpose hty with hp | hp | hp <;> rw [hp] <;> decide
    · rw [hty, if_pos rfl]; decide
  · exact hcat
  · exact hnote
  · exact natToChars_cellSafe t.amount

/-- Cells of the transaction CSV header are codec-safe. -/
lemma csvHeader_cell_props : ∀ cell ∈ csvHeader, cellSafe cell := by decide

/-- An encoded non-empty row starts with a quote. -/
lemma encodeRow_cons_shape (c : List Char) (cs : List (List Char)) :
    ∃ tl, encodeRow (c :: cs) = '"' :: tl := by
  cases cs with
  | nil => exact ⟨escapeQuotes c ++ ['"'], rfl⟩
  | cons c2 cs =>
    exact ⟨(escapeQuotes c ++ ['"']) ++ ',' :: joinChar ',' ((c2 :: cs).map encodeCell), rfl⟩

/-- Mapping a function that fixes every member is the identity. -/
lemma map_eq_self_of_forall {α : Type} (l : List α) (f : α → α) (h : ∀ a ∈ l, f a = a) :
    l.map f = l := by
  induction l with
  | nil => rfl
  | cons a l ih => rw [List.map_cons, h a (by simp), ih (fun a ha => h a (by simp [ha]))]

/-- Scanning and trimming an encoded row of trim-invariant cells recovers
the cells. -/
lemma parseRow_encodeRow (c : List Char) (cs : List (List Char))
    (htrim : ∀ cell ∈ c :: cs, jsTrim cell = cell) :
    (parseCellsAux false [] (encodeRow (c :: cs))).map jsTrim = c :: cs := by
  rw [parseCells_encodeRow cs c []]
  rw [List.nil_append]
  exact map_eq_self_of_forall _ _ htrim

/-- An encoded row contains no line break when its cells contain none. -/
lemma encodeRow_no_newline (cells : List (List Char))
    (h : ∀ cell ∈ cells, cellSafe cell) :
    '\n' ∉ encodeRow cells ∧ '\r' ∉ encodeRow cells := by
  constructor
  · intro hmem
    rcases mem_encodeRow cells hmem with h2 | h2 | ⟨cell, hcell, h3⟩
    · exact absurd h2 (by decide)
    · exact absurd h2 (by decide)
    · exact (h cell hcell).1 h3
  · intro hmem
    rcases mem_encodeRow cells hmem with h2 | h2 | ⟨cell, hcell, h3⟩
    · exact absurd h2 (by decide)
    · exact absurd h2 (by decide)
    · exact (h cell hcell).2.1 h3

/-- Decoding the encoded CSV text recovers exactly the header row and the
transaction rows. -/
lemma parseCsv_transactionsCsv (txs : List Tx) (hsafe : ∀ t ∈ txs, txCsvSafe t) :
    parseCsv (transactionsCsv txs) = csvHeader :: txs.map rowOfTx := by
  have hcells : ∀ cells ∈ csvHeader :: txs.map rowOfTx, ∀ cell ∈ cells, cellSafe cell := by
    intro cells hcells
    rcases List.mem_cons.mp hcells with rfl | h2
    · exact csvHeader_cell_props
    · obtain ⟨t, ht, rfl⟩ := List.mem_map.mp h2
      exact rowOfTx_cell_props t (hsafe t ht)
  have hshape : ∀ cells ∈ csvHeader :: txs.map rowOfTx, ∃ c cs, cells = c :: cs := by
    intro cells hcells
    rcases List.mem_cons.mp hcells with rfl | h2
    · exact ⟨_, _, rfl⟩
    · obtain ⟨t, ht, rfl⟩ := List.mem_map.mp h2
      exact ⟨_, _, rfl⟩
  unfold parseCsv transactionsCsv
  rw [List.map_cons]
  rw [splitLines_joinChar ((txs.map rowOfTx).map encodeRow) (encodeRow csvHeader) ?hnl]
  case hnl =>
    intro r hr
    rw [← List.map_cons] at hr
    obtain ⟨cells, hcells2, rfl⟩ := List.mem_map.mp hr
    exact encodeRow_no_newline cells (hcells cells hcells2)
  rw [← List.map_cons]
  rw [List.filter_eq_self.mpr ?hblank]
  case hblank =>
    intro line hline
    obtain ⟨cells, hcells2, rfl⟩ := List.mem_map.mp hline
    obtain ⟨c, cs, rfl⟩ := hshape cells hcells2
    obtain ⟨tl, htl⟩ := encodeRow_cons_shape c cs
    rw [htl]
    simpa using jsTrim_quote_head tl
  rw [List.map_map]
  refine map_eq_self_of_forall _ _ ?_
  intro cells hcells2
  obtain ⟨c, cs, rfl⟩ := hshape cells hcells2
  exact parseRow_encodeRow c cs (fun cell hcell => (hcells _ hcells2 cell hcell).2.2)

/-- The (date, type, purpose-for-expense, category, note, amount) tuple the
importing is expected to reproduce for one original transaction: identical
fields, except that income rows always come back with purpose
`consumption`. -/
def expectedPayload (t : Tx) : TxPayload :=
  { date := t.date
    type := t.type
    purpose := if t.type = "income" then "consumption" else t.purpose
    category := t.category
    note := t.note
    amount := t.amount }

/-- A non-empty string has non-empty character data. -/
lemma string_data_ne_nil (s : String) (h : s ≠ "") : s.data ≠ [] := by
  intro h2
  apply h
  apply String.ext
  rw [h2]

/-- Decoding one encoded row of a safe transaction yields its expected
payload. -/
lemma rowToTx_rowOfTx (t : Tx) (h : txCsvSafe t) :
    rowToTx (rowOfTx t) = some (expectedPayload t) := by
  obtain ⟨_, hdne, _, hcne, _, htype, hpurpose⟩ := h
  have hddata : t.date.data ≠ [] := string_data_ne_nil _ hdne
  have hcdata : t.category.data ≠ [] := string_data_ne_nil _ hcne
  have hmk : ∀ s : String, String.mk s.data = s := fun s => rfl
  rcases htype with hty | hty
  · rcases hpurpose hty with hp | hp | hp <;>
      (unfold rowToTx rowOfTx expectedPayload;
       simp +decide [hty, hp, List.get?, jsNumber_natToChars, hddata, hcdata, hmk])
  · unfold rowToTx rowOfTx expectedPayload
    simp +decide [hty, List.get?, jsNumber_natToChars, hddata, hcdata, hmk]

/-- `filterMap` after `map` where the composite is `some` of `e` on every
member is exactly `map e`. -/
lemma filterMap_map_of_forall {α β γ : Type} (l : List α) (g : α → β) (f : β → Option γ)
    (e : α → γ) (h : ∀ a ∈ l, f (g a) = some (e a)) : (l.map g).filterMap f = l.map e := by
  induction l with
  | nil => rfl
  | cons a l ih =>
    have ha := h a (by simp)
    simp only [List.map_cons, List.filterMap_cons, ha,
      ih (fun x hx => h x (by simp [hx]))]

/-- **C2.** For every non-empty transaction list whose fields round-trip
through the CSV codec (`txCsvSafe`): encoding the list with the transaction
CSV encoder (header 日付,種別,分類,カテゴリ,メモ,金額) and then decoding the
produced text with `parseCsv` plus the transaction-import row mapping
reproduces, for every row, the same (date, type, purpose-for-expense,
category, note, amount) tuple as the original transaction. -/
theorem csv_transactions_roundtrip (txs : List Tx) (hne : txs ≠ [])
    (hsafe : ∀ t ∈ txs, txCsvSafe t) :
    importTransactions (transactionsCsv txs) = some (txs.map expectedPayload) := by
  have hrows := parseCsv_transactionsCsv txs hsafe
  have hlen : ¬ (csvHeader :: txs.map rowOfTx).length ≤ 1 := by
    cases txs with
    | nil => exact absurd rfl hne
    | cons t ts => simp only [List.length_cons, List.length_map]; omega
  have hbody : (txs.map rowOfTx).filter (fun row => row.any (fun cell => !cell.isEmpty)) =
      txs.map rowOfTx := by
    apply List.filter_eq_self.mpr
    intro row hrow
    obtain ⟨t, ht, rfl⟩ := List.mem_map.mp hrow
    have hd : t.date.data ≠ [] := string_data_ne_nil _ (hsafe t ht).2.1
    simp [rowOfTx, hd]
  have hpayload : (txs.map rowOfTx).filterMap rowToTx = txs.map expectedPayload :=
    filterMap_map_of_forall txs rowOfTx rowToTx expectedPayload
      (fun t ht => rowToTx_rowOfTx t (hsafe t ht))
  have hempty : (txs.map expectedPayload).isEmpty = false := by
    cases txs with
    | nil => exact absurd rfl hne
    | cons t ts => rfl
  simp only [importTransactions, hrows]
  rw [if_neg hlen]
  rw [if_neg (by decide : ¬ csvHeader.get? 0 ≠ some ("日付" : String).data)]
  rw [hbody, hpayload, hempty]
  simp

/-- Witness for C2: a concrete two-row list (an expense with a quote and a
comma in its note, and an income row) satisfies the hypotheses and
round-trips. -/
theorem csv_transactions_roundtrip_witness :
    ([⟨"2024-01-05", 1200, "expense", "waste", "食費", "スーパー, \"特売\""⟩,
      ⟨"2024-01-10", 50000, "income", "investment", "労働", ""⟩] : List Tx) ≠ [] ∧
    (∀ t ∈ ([⟨"2024-01-05", 1200, "expense", "waste", "食費", "スーパー, \"特売\""⟩,
      ⟨"2024-01-10", 50000, "income", "investment", "労働", ""⟩] : List Tx), txCsvSafe t) ∧
    importTransactions (transactionsCsv
      [⟨"2024-01-05", 1200, "expense", "waste", "食費", "スーパー, \"特売\""⟩,
       ⟨"2024-01-10", 50000, "income", "investment", "労働", ""⟩]) =
      some ([⟨"2024-01-05", 1200, "expense", "waste", "食費", "スーパー, \"特売\""⟩,
        ⟨"2024-01-10", 50000, "income", "investment", "労働", ""⟩].map expectedPayload) :=
  ⟨by decide, by decide,
    csv_transactions_roundtrip _ (by decide) (by decide)⟩

/-! ## Budget evaluator

`budgetStats` from `App.jsx` (lines 766-790).  The budgets object is an
association list (category, amount) with the keys unique, as in a JS object;
`budgets[name] || 0` is `(budgets.lookup name).getD 0`.  The `daysLeft` /
`daysInMonth` fields depend on the wall clock and are not referenced by any
claim, so they are omitted from the record. -/

structure BudgetStats where
  budgetTotal : Nat
  expenseTotal : Nat
  remaining : Int
  percent : Int
deriving Repr, DecidableEq

/-- `budgetStats` from `App.jsx`: expense total over the filtered items, the
budget category set implied by the filter, their total, and the utilization
percent `Math.round((expenseTotal / budgetTotal) * 100)` (0 when the budget
total is 0).  `Math.round` on a non-negative rational is `round`
(= floor (x + 1/2), ties towards +infinity). -/
def budgetStats (budgets : List (String × Nat)) (items : List Tx) (fi : Filters) :
    BudgetStats :=
  let expenseTotal : Nat :=
    (items.filter (fun t => t.type = "expense")).foldl (fun sum t => sum + t.amount) 0
  let budgetCategories :=
    if fi.type = "income" then []
    else if fi.category = "all" then budgets.map Prod.fst
    else [fi.category]
  let budgetTotal :=
    budgetCategories.foldl (fun sum name => sum + ((budgets.lookup name).getD 0)) 0
  let percent : Int :=
    if 0 < budgetTotal then round (((expenseTotal : Rat) / (budgetTotal : Rat)) * 100) else 0
  { budgetTotal := budgetTotal
    expenseTotal := expenseTotal
    remaining := (budgetTotal : Int) - (expenseTotal : Int)
    percent := percent }

/-- Folding `+ f a` over a list is the sum of the mapped list. -/
lemma foldl_add_eq_sum {α : Type} (l : List α) (f : α → Nat) (a : Nat) :
    l.foldl (fun sum x => sum + f x) a = a + (l.map f).sum := by
  induction l generalizing a with
  | nil => simp
  | cons x l ih => simp [ih, Nat.add_assoc]

/-- With unique keys, summing `lookup k |>.getD 0` over all keys of an
association list is the sum of its values. -/
lemma sum_lookup_keys (l : List (String × Nat)) (hnodup : (l.map Prod.fst).Nodup) :
    ((l.map Prod.fst).map (fun name => ((l.lookup name).getD 0))).sum =
      (l.map Prod.snd).sum := by
  induction l with
  | nil => rfl
  | cons p l ih =>
    obtain ⟨k, v⟩ := p
    simp only [List.map_cons, List.nodup_cons] at hnodup ⊢
    rw [List.sum_cons, List.sum_cons]
    rw [show (List.lookup k ((k, v) :: l)).getD 0 = v by simp [List.lookup]]
    congr 1
    rw [show (l.map Prod.fst).map (fun name => ((List.lookup name ((k, v) :: l)).getD 0)) =
        (l.map Prod.fst).map (fun name => ((List.lookup name l).getD 0)) from ?_]
    · exact ih hnodup.2
    · apply List.map_congr_left
      intro name hname
      have hne : name ≠ k := fun h => hnodup.1 (h ▸ hname)
      have hbeq : (name == k) = false := by simpa using hne
      simp [List.lookup, hbeq]

/-- `round` on a rational is within a half of the value, with the tie at
exactly one half going up. -/
lemma round_rat_bounds (x : Rat) :
    ((round x : Int) : Rat) - 1 / 2 ≤ x ∧ x < ((round x : Int) : Rat) + 1 / 2 := by
  rw [round_eq]
  constructor
  · have h := Int.floor_le (x + 1 / 2)
    push_cast at h ⊢
    linarith
  · have h := Int.lt_floor_add_one (x + 1 / 2)
    push_cast at h ⊢
    linarith

/-- **C3.** For every budgets map, item set and filter, the budget
utilization percent equals round(expenseTotal / budgetTotal × 100) — the
nearest integer to the non-negative ratio, ties rounded up — whenever
budgetTotal > 0, and equals 0 whenever budgetTotal = 0, regardless of
expenseTotal. -/
theorem budget_percent_spec (budgets : List (String × Nat)) (items : List Tx) (fi : Filters) :
    (0 < (budgetStats budgets items fi).budgetTotal →
      (budgetStats budgets items fi).percent =
        round ((((budgetStats budgets items fi).expenseTotal : Rat) /
          ((budgetStats budgets items fi).budgetTotal : Rat)) * 100) ∧
      ((budgetStats budgets items fi).percent : Rat) - 1 / 2 ≤
        (((budgetStats budgets items fi).expenseTotal : Rat) /
          ((budgetStats budgets items fi).budgetTotal : Rat)) * 100 ∧
      (((budgetStats budgets items fi).expenseTotal : Rat) /
        ((budgetStats budgets items fi).budgetTotal : Rat)) * 100 <
        ((budgetStats budgets items fi).percent : Rat) + 1 / 2) ∧
    ((budgetStats budgets items fi).budgetTotal = 0 →
      (budgetStats budgets items fi).percent = 0) := by
  have hproj : (budgetStats budgets items fi).percent =
      if 0 < (budgetStats budgets items fi).budgetTotal then
        round ((((budgetStats budgets items fi).expenseTotal : Rat) /
          ((budgetStats budgets items fi).budgetTotal : Rat)) * 100)
      else 0 := by
    simp only [budgetStats]
  constructor
  · intro hpos
    rw [hproj, if_pos hpos]
    exact ⟨rfl, (round_rat_bounds _).1, (round_rat_bounds _).2⟩
  · intro hzero
    rw [hproj, if_neg (by omega)]

/-- Witness for C3 at a tie: 25 spent of a 200 budget is 12.5%, reported as
13 (ties up). -/
theorem budget_percent_spec_witness :
    0 < (budgetStats [("食費", 200)]
      [⟨"2024-01-05", 25, "expense", "consumption", "食費", ""⟩]
      ⟨"all", "all", "all", "", "", ""⟩).budgetTotal ∧
    (budgetStats [("食費", 200)]
      [⟨"2024-01-05", 25, "expense", "consumption", "食費", ""⟩]
      ⟨"all", "all", "all", "", "", ""⟩).percent = 13 ∧
    (budgetStats [("食費", 200)]
      [⟨"2024-01-05", 25, "expense", "consumption", "食費", ""⟩]
      ⟨"all", "all", "all", "", "", ""⟩).percent =
      round ((((budgetStats [("食費", 200)]
        [⟨"2024-01-05", 25, "expense", "consumption", "食費", ""⟩]
        ⟨"all", "all", "all", "", "", ""⟩).expenseTotal : Rat) /
        ((budgetStats [("食費", 200)]
          [⟨"2024-01-05", 25, "expense", "consumption", "食費", ""⟩]
          ⟨"all", "all", "all", "", "", ""⟩).budgetTotal : Rat)) * 100) := by
  have h := ((budget_percent_spec [("食費", 200)]
    [⟨"2024-01-05", 25, "expense", "consumption", "食費", ""⟩]
    ⟨"all", "all", "all", "", "", ""⟩).1 (by decide)).1
  refine ⟨by decide, ?_, h⟩
  rw [h]
  rw [show (budgetStats [("食費", 200)]
      [⟨"2024-01-05", 25, "expense", "consumption", "食費", ""⟩]
      ⟨"all", "all", "all", "", "", ""⟩).expenseTotal = 25 by decide]
  rw [show (budgetStats [("食費", 200)]
      [⟨"2024-01-05", 25, "expense", "consumption", "食費", ""⟩]
      ⟨"all", "all", "all", "", "", ""⟩).budgetTotal = 200 by decide]
  norm_num [round_eq]

/-- **C7.** For every budgets map (with the unique keys of a JS object) and
filter, `budgetTotal` is the sum of budget amounts over exactly this
category set: the empty set when filter.type is income; the singleton
{filter.category} when filter.category is concrete (and filter.type is not
income); otherwise all categories that have a defined budget. -/
theorem budget_total_category_set (budgets : List (String × Nat)) (items : List Tx)
    (fi : Filters) (hnodup : (budgets.map Prod.fst).Nodup) :
    (fi.type = "income" → (budgetStats budgets items fi).budgetTotal = 0) ∧
    (fi.type ≠ "income" → fi.category ≠ "all" →
      (budgetStats budgets items fi).budgetTotal = (budgets.lookup fi.category).getD 0) ∧
    (fi.type ≠ "income" → fi.category = "all" →
      (budgetStats budgets items fi).budgetTotal = (budgets.map Prod.snd).sum) := by
  refine ⟨?_, ?_, ?_⟩
  · intro h
    simp only [budgetStats]
    rw [if_pos h]
    rfl
  · intro h1 h2
    simp only [budgetStats]
    rw [if_neg h1, if_neg h2]
    simp
  · intro h1 h2
    simp only [budgetStats]
    rw [if_neg h1, if_pos h2]
    rw [foldl_add_eq_sum]
    simpa using sum_lookup_keys budgets hnodup

/-- Witness for C7: two disjoint budget rows sum to 300 under the pass-all
filter. -/
theorem budget_total_category_set_witness :
    (([("食費", 100), ("住居", 200)] : List (String × Nat)).map Prod.fst).Nodup ∧
    (budgetStats [("食費", 100), ("住居", 200)] []
      ⟨"all", "all", "all", "", "", ""⟩).budgetTotal = 300 ∧
    ((⟨"all", "all", "all", "", "", ""⟩ : Filters).type ≠ "income" →
      (⟨"all", "all", "all", "", "", ""⟩ : Filters).category = "all" →
      (budgetStats [("食費", 100), ("住居", 200)] []
        ⟨"all", "all", "all", "", "", ""⟩).budgetTotal =
        (([("食費", 100), ("住居", 200)] : List (String × Nat)).map Prod.snd).sum) :=
  ⟨by decide, by decide,
    (budget_total_category_set [("食費", 100), ("住居", 200)] []
      ⟨"all", "all", "all", "", "", ""⟩ (by decide)).2.2⟩

/-- JS object property assignment on an association list: replace the value
if the key exists, else append the new pair. -/
def objSet (m : List (String × Nat)) (k : String) (v : Nat) : List (String × Nat) :=
  if (m.lookup k).isSome then m.map (fun p => if p.1 = k then (k, v) else p)
  else m ++ [(k, v)]

/-- `categorySpendMap` from `App.jsx` (lines 813-821): accumulate expense
amounts per category into a JS object. -/
def categorySpendMap (items : List Tx) : List (String × Nat) :=
  (items.filter (fun t => t.type = "expense")).foldl
    (fun m t => objSet m t.category (((m.lookup t.category).getD 0) + t.amount)) []

/-- One row of the per-category budget chart. -/
structure BudgetChartRow where
  name : String
  budget : Nat
  spent : Nat
  remaining : Nat
  over : Nat
deriving Repr, DecidableEq

/-- `budgetChartData` from `App.jsx` (lines 823-833): one row per category
name with `budgets[name] || 0` and `categorySpendMap[name] || 0`
(`Math.max(x - y, 0)` is truncated subtraction on `Nat`), keeping only rows
with a positive budget or positive spend. -/
def budgetChartData (categories : List String) (budgets spend : List (String × Nat)) :
    List BudgetChartRow :=
  (categories.map (fun name =>
    let budget := (budgets.lookup name).getD 0
    let spent := (spend.lookup name).getD 0
    { name := name, budget := budget, spent := spent,
      remaining := budget - spent, over := spent - budget })).filter
    (fun item => 0 < item.budget ∨ 0 < item.spent)

/-- **C10.** Every row of the per-category budget chart has a name from the
current category list; a budget entry whose category is not in the list
produces no chart row, while its amount still contributes to `budgetTotal`
when filter.category is "all" and filter.type is not income. -/
theorem budget_chart_rows_vs_total (categories : List String) (budgets : List (String × Nat))
    (items : List Tx) (fi : Filters) (c : String) (a : Nat)
    (hmem : (c, a) ∈ budgets) (hc : c ∉ categories)
    (hnodup : (budgets.map Prod.fst).Nodup)
    (ht : fi.type ≠ "income") (hcat : fi.category = "all") :
    (∀ r ∈ budgetChartData categories budgets (categorySpendMap items),
      r.name ∈ categories) ∧
    (∀ r ∈ budgetChartData categories budgets (categorySpendMap items), r.name ≠ c) ∧
    (budgetStats budgets items fi).budgetTotal = (budgets.map Prod.snd).sum ∧
    a ∈ budgets.map Prod.snd := by
  have hname : ∀ r ∈ budgetChartData categories budgets (categorySpendMap items),
      r.name ∈ categories := by
    intro r hr
    obtain ⟨hr2, _⟩ := List.mem_filter.mp hr
    obtain ⟨name, hname2, rfl⟩ := List.mem_map.mp hr2
    simpa using hname2
  refine ⟨hname, fun r hr h => hc (h ▸ hname r hr), ?_, ?_⟩
  · simp only [budgetStats]
    rw [if_neg ht, if_pos hcat]
    rw [foldl_add_eq_sum]
    simpa using sum_lookup_keys budgets hnodup
  · exact List.mem_map.mpr ⟨(c, a), hmem, rfl⟩

/-- Witness for C10: a stray budget row (category not in the list) yields no
chart row but is counted in the 150-yen budget total. -/
theorem budget_chart_rows_vs_total_witness :
    (("幽霊", (50 : Nat)) ∈ ([("食費", 100), ("幽霊", 50)] : List (String × Nat))) ∧
    ("幽霊" ∉ ["食費"]) ∧
    (budgetStats [("食費", 100), ("幽霊", 50)] []
      ⟨"all", "all", "all", "", "", ""⟩).budgetTotal = 150 ∧
    budgetChartData ["食費"] [("食費", 100), ("幽霊", 50)] (categorySpendMap []) =
      [⟨"食費", 100, 0, 100, 0⟩] ∧
    (∀ r ∈ budgetChartData ["食費"] [("食費", 100), ("幽霊", 50)] (categorySpendMap []),
      r.name ≠ "幽霊") :=
  ⟨by decide, by decide, by decide, by decide,
    (budget_chart_rows_vs_total ["食費"] [("食費", 100), ("幽霊", 50)] []
      ⟨"all", "all", "all", "", "", ""⟩ "幽霊" 50
      (by decide) (by decide) (by decide) (by decide) (by decide)).2.1⟩

/-! ## Month arithmetic of the rollover policy

`getPreviousMonthFrom` (App.jsx lines 51-57) builds `new Date(year,
month - 2, 1)` — a LOCAL-time instant — and serializes it with
`toISOString()`, which is UTC.  For a runtime whose UTC offset is positive
(local time ahead of UTC, e.g. JST = +540 minutes), local midnight of the
first of a month is still the last day of the PREVIOUS month in UTC, so the
`YYYY-MM` slice is one month earlier than intended.  `tz` is the offset in
minutes by which local time is ahead of UTC; the model is valid for real
offsets (|tz| < 1440 minutes). -/

/-- The (zero-based, from year 0) month index that
`new Date(y, m, 1).toISOString().slice(0, 7)` displays: the month itself
for `tz ≤ 0`, the month before for `0 < tz` (local midnight maps to the
previous UTC day). -/
def jsToIsoMonth (total tz : Int) : Int :=
  if 0 < tz then total - 1 else total

/-- `getPreviousMonthFrom` on a parsed `YYYY-MM` value: `none` models the
fallback to the current-date-based `getPreviousMonth()` when year or month
is 0 (a falsy check in the source); otherwise the result is returned as a
(year, month 1..12) pair. -/
def getPreviousMonthFrom (year month : Nat) (tz : Int) : Option (Int × Int) :=
  if year = 0 ∨ month = 0 then none
  else
    let total : Int := (year : Int) * 12 + (month : Int) - 2
    let iso := jsToIsoMonth total tz
    some (iso / 12, iso % 12 + 1)

/-- **C5.** The spec says `getPreviousMonthFrom "2024-01"` is `2023-12` for
every environment.  In a UTC environment (tz = 0) it is; in a positive-UTC-
offset environment such as JST (tz = +540), the very example of the spec
evaluates to `2023-11` — two calendar months back — because the local
midnight built by `new Date` lands in the previous UTC month when
serialized by `toISOString`. -/
theorem getPreviousMonthFrom_tz_dependent :
    getPreviousMonthFrom 2024 1 0 = some (2023, 12) ∧
    getPreviousMonthFrom 2024 1 540 = some (2023, 11) ∧
    ((2023 : Int), (11 : Int)) ≠ ((2023 : Int), (12 : Int)) := by
  refine ⟨by decide, by decide, by decide⟩

/-! ## Rollover policy and budget persistence

State model for `loadBudgets` / `maybeAutoCopyBudgets` /
`copyBudgetsFromMonth` (App.jsx lines 380-505).  Months are identified by
their zero-based month index (`Int`), matching the arithmetic of
`jsToIsoMonth`; the persisted `budgets` collection is `store` (rows
(category, amount) per month), `flags` is the `budget-copy-<month>`
localStorage entry, `budgets` is the in-memory month map, and `prompts`
counts the rollover `confirm()` dialogs shown.  The environment carries the
outcome of each external interaction: per-month select failures, the two
`confirm()` answers, and insert/delete failures.  (`budgetDrafts` and the
`loading` flag play no role in any claim and are omitted; the `!targetMonth`
guard on the string month input has no counterpart for integer month
keys.) -/

structure RolloverEnv where
  fetchFails : Int → Bool
  userAccepts : Bool
  confirmCopy : Bool
  insertFails : Bool
  deleteFails : Bool
  tz : Int

structure AppSt where
  store : Int → List (String × Nat)
  flags : Int → Option String
  budgets : String → Option Nat
  status : String
  prompts : Nat

/-- `localStorage.setItem` on the per-month rollover flag. -/
def setFlag (f : Int → Option String) (k : Int) (v : String) : Int → Option String :=
  fun k2 => if k2 = k then some v else f k2

/-- The in-memory budgets map built by `loadBudgets`: last row per category
wins, as with JS object assignment. -/
def mapOfRows (rows : List (String × Nat)) : String → Option Nat :=
  fun k => rows.reverse.lookup k

/-- A bulk insert into the budgets collection for one month. -/
def insertRows (store : Int → List (String × Nat)) (m : Int) (rows : List (String × Nat)) :
    Int → List (String × Nat) :=
  fun m2 => if m2 = m then store m2 ++ rows else store m2

/-- The month key fetched as "previous month" by the rollover check:
`getPreviousMonthFrom` applied to the target month. -/
def prevMonthKeyOfCode (k tz : Int) : Int := jsToIsoMonth (k - 1) tz

/-- `maybeAutoCopyBudgets` (App.jsx lines 408-431): return if the month is
flagged; fetch the previous month's budgets; on error or no rows flag
"skipped"; otherwise flag "prompted", show the confirm dialog, and on
accept insert the copied rows and reload (the `loadAgain` continuation). -/
def maybeAutoCopyBudgets (env : RolloverEnv) (loadAgain : AppSt → AppSt)
    (target : Int) (s : AppSt) : AppSt :=
  if (s.flags target).isSome then s
  else
    let fromMonth := prevMonthKeyOfCode target env.tz
    if env.fetchFails fromMonth then { s with flags := setFlag s.flags target "skipped" }
    else
      let data := s.store fromMonth
      if data.length = 0 then { s with flags := setFlag s.flags target "skipped" }
      else
        let s1 := { s with flags := setFlag s.flags target "prompted",
                           prompts := s.prompts + 1 }
        if env.userAccepts = false then s1
        else if env.insertFails then { s1 with status := "予算コピーエラー" }
        else loadAgain { s1 with store := insertRows s1.store target data }

/-- `loadBudgets` (App.jsx lines 380-406) with recursion fuel: fetch the
month's budget rows (an error only sets the status), publish the in-memory
map, and run the rollover check when the month has no rows. -/
def loadBudgetsAux (env : RolloverEnv) : Nat → Int → AppSt → AppSt
  | 0, _, s => s
  | fuel + 1, target, s =>
    if env.fetchFails target then { s with status := "予算読み込みエラー" }
    else
      let data := s.store target
      let s1 := { s with budgets := mapOfRows data }
      if data.length = 0 then
        maybeAutoCopyBudgets env (loadBudgetsAux env fuel target) target s1
      else s1

/-- `copyBudgetsFromMonth` (App.jsx lines 460-505): guard against copying a
month onto itself, confirm, fetch the source month (errors and an empty
source only set the status), DELETE the target month's budgets, then insert
the copied rows; an insert failure leaves the target month deleted. -/
def copyBudgetsFromMonth (env : RolloverEnv) (fuel : Nat) (copyFrom targetMonth : Int)
    (s : AppSt) : AppSt :=
  if copyFrom = targetMonth then { s with status := "コピー元の月を選んでください" }
  else if env.confirmCopy = false then s
  else if env.fetchFails copyFrom then { s with status := "予算読み込みエラー" }
  else
    let data := s.store copyFrom
    if data.length = 0 then { s with status := "コピー元の予算がありません" }
    else if env.deleteFails then { s with status := "予算削除エラー" }
    else
      let s1 := { s with store := fun m => if m = targetMonth then [] else s.store m }
      if env.insertFails then { s1 with status := "予算コピーエラー" }
      else
        let s2 := { s1 with store := insertRows s1.store targetMonth data }
        { loadBudgetsAux env fuel targetMonth s2 with status := "予算をコピーしました" }

/-- A load of a month whose rollover flag is already set never prompts and
never changes the flags: `maybeAutoCopyBudgets` returns immediately. -/
lemma loadBudgetsAux_flagged (env : RolloverEnv) (fuel : Nat) (target : Int) (s : AppSt)
    (h : (s.flags target).isSome = true) :
    (loadBudgetsAux env fuel target s).prompts = s.prompts ∧
    (loadBudgetsAux env fuel target s).flags = s.flags := by
  cases fuel with
  | zero => exact ⟨rfl, rfl⟩
  | succ fuel =>
    simp only [loadBudgetsAux]
    by_cases hf : env.fetchFails target = true
    · simp [hf]
    · rw [if_neg (by simp [hf])]
      by_cases hd : (s.store target).length = 0
      · rw [if_pos hd]
        simp [maybeAutoCopyBudgets, h]
      · rw [if_neg hd]
        exact ⟨rfl, rfl⟩


/-- **C4.** For a target month with no stored budgets, an unset flag and a
non-empty previous month (in a non-positive-UTC-offset environment, where
the code's previous-month computation is the calendar previous month — see
C5), one load triggers exactly one rollover prompt and leaves the flag at
"prompted" regardless of the user's answer (accept or decline) and of the
accept-path insert outcome; and every load of a month whose flag is set
triggers zero prompts. -/
theorem rollover_prompts_once (env : RolloverEnv) (s : AppSt) (fuel : Nat) (target : Int)
    (htz : env.tz ≤ 0)
    (hflag : s.flags target = none)
    (hempty : s.store target = [])
    (hfetch : env.fetchFails target = false)
    (hfetchPrev : env.fetchFails (target - 1) = false)
    (hprev : s.store (target - 1) ≠ []) :
    (loadBudgetsAux env (fuel + 1) target s).prompts = s.prompts + 1 ∧
    (loadBudgetsAux env (fuel + 1) target s).flags target = some "prompted" ∧
    (∀ (s2 : AppSt) (fuel2 : Nat), (s2.flags target).isSome = true →
      (loadBudgetsAux env fuel2 target s2).prompts = s2.prompts) := by
  have hkey : prevMonthKeyOfCode target env.tz = target - 1 := by
    unfold prevMonthKeyOfCode jsToIsoMonth
    rw [if_neg (by omega)]
  have hlen : ¬ (s.store (target - 1)).length = 0 := by
    simpa [List.length_eq_zero] using hprev
  have hmain : (loadBudgetsAux env (fuel + 1) target s).prompts = s.prompts + 1 ∧
      (loadBudgetsAux env (fuel + 1) target s).flags target = some "prompted" := by
    simp only [loadBudgetsAux]
    rw [if_neg (by simp [hfetch])]
    rw [if_pos (by simp [hempty])]
    simp only [maybeAutoCopyBudgets, hkey]
    rw [if_neg (by simp [hflag])]
    rw [if_neg (by simp [hfetchPrev])]
    rw [if_neg (by simpa using hlen)]
    by_cases hacc : env.userAccepts = false
    · rw [if_pos hacc]
      exact ⟨rfl, by simp [setFlag]⟩
    · rw [if_neg hacc]
      by_cases hins : env.insertFails = true
      · rw [if_pos hins]
        exact ⟨rfl, by simp [setFlag]⟩
      · rw [if_neg hins]
        refine ⟨?_, ?_⟩
        · rw [(loadBudgetsAux_flagged env fuel target _ (by simp [setFlag])).1]
        · rw [show (loadBudgetsAux env fuel target _).flags = _ from
            (loadBudgetsAux_flagged env fuel target _ (by simp [setFlag])).2]
          simp [setFlag]
  exact ⟨hmain.1, hmain.2,
    fun s2 fuel2 h2 => (loadBudgetsAux_flagged env fuel2 target s2 h2).1⟩

/-- Witness for C4: a concrete first load of month 5 with one budget row in
month 4 prompts once and flags the month; a reload of the flagged state
prompts zero times. -/
theorem rollover_prompts_once_witness :
    (loadBudgetsAux
      ⟨fun _ => false, false, true, false, false, 0⟩ 2 5
      ⟨fun m => if m = 4 then [("食費", 100)] else [], fun _ => none,
        fun _ => none, "", 0⟩).prompts = 1 ∧
    (loadBudgetsAux
      ⟨fun _ => false, false, true, false, false, 0⟩ 2 5
      ⟨fun m => if m = 4 then [("食費", 100)] else [], fun _ => none,
        fun _ => none, "", 0⟩).flags 5 = some "prompted" := by
  have h := rollover_prompts_once
    ⟨fun _ => false, false, true, false, false, 0⟩
    ⟨fun m => if m = 4 then [("食費", 100)] else [], fun _ => none,
      fun _ => none, "", 0⟩ 1 5
    (by decide) (by decide) (by decide) (by decide) (by decide) (by decide)
  exact ⟨h.1, h.2.1⟩

/-- **C9.** If the fetch of the previous month's budgets during the rollover
check fails, the target month is marked with the same "skipped" flag as the
no-prior-budgets case and no prompt is shown; and since any set flag makes
`maybeAutoCopyBudgets` return immediately, no rollover prompt is ever shown
for that month on any later load, even if prior-month budgets do exist. -/
theorem rollover_fetch_error_skips (env : RolloverEnv) (s : AppSt) (fuel : Nat) (target : Int)
    (hflag : s.flags target = none)
    (hempty : s.store target = [])
    (hfetch : env.fetchFails target = false)
    (hfetchPrev : env.fetchFails (prevMonthKeyOfCode target env.tz) = true) :
    (loadBudgetsAux env (fuel + 1) target s).flags target = some "skipped" ∧
    (loadBudgetsAux env (fuel + 1) target s).prompts = s.prompts ∧
    (∀ (s2 : AppSt) (fuel2 : Nat), (s2.flags target).isSome = true →
      (loadBudgetsAux env fuel2 target s2).prompts = s2.prompts) := by
  have hred : loadBudgetsAux env (fuel + 1) target s =
      { s with budgets := mapOfRows (s.store target),
               flags := setFlag s.flags target "skipped" } := by
    simp only [loadBudgetsAux]
    rw [if_neg (by simp [hfetch])]
    rw [if_pos (by simp [hempty])]
    simp only [maybeAutoCopyBudgets]
    rw [if_neg (by simp [hflag])]
    rw [if_pos (by simp [hfetchPrev])]
  rw [hred]
  exact ⟨by simp [setFlag], rfl,
    fun s2 fuel2 h2 => (loadBudgetsAux_flagged env fuel2 target s2 h2).1⟩

/-- Witness for C9: the previous-month fetch of month 4 errors although
month 4 has a budget row; month 5 is flagged "skipped" with zero prompts,
and a later load of the flagged state prompts zero times. -/
theorem rollover_fetch_error_skips_witness :
    (loadBudgetsAux
      ⟨fun m => decide (m = 4), true, true, false, false, 0⟩ 2 5
      ⟨fun m => if m = 4 then [("食費", 100)] else [], fun _ => none,
        fun _ => none, "", 0⟩).flags 5 = some "skipped" ∧
    (loadBudgetsAux
      ⟨fun m => decide (m = 4), true, true, false, false, 0⟩ 2 5
      ⟨fun m => if m = 4 then [("食費", 100)] else [], fun _ => none,
        fun _ => none, "", 0⟩).prompts = 0 := by
  have h := rollover_fetch_error_skips
    ⟨fun m => decide (m = 4), true, true, false, false, 0⟩
    ⟨fun m => if m = 4 then [("食費", 100)] else [], fun _ => none,
      fun _ => none, "", 0⟩ 1 5
    (by decide) (by decide) (by decide) (by decide)
  exact ⟨h.1, h.2.1⟩

/-- **C6 counterexample.** The manual copy action is not atomic: with the
source fetch and the delete succeeding but the final insert failing, the
target month (which held 食費 100) is left with no budget rows at all —
the delete was applied without the insert. -/
theorem copy_budgets_partial_apply_cex :
    ((copyBudgetsFromMonth ⟨fun _ => false, true, true, true, false, 0⟩ 1 7 10
      ⟨fun m => if m = 10 then [("食費", 100)] else if m = 7 then [("住居", 200)] else [],
        fun _ => none, fun _ => none, "", 0⟩).store 10 = []) ∧
    ((⟨fun m => if m = 10 then [("食費", 100)] else if m = 7 then [("住居", 200)] else [],
        fun _ => none, fun _ => none, "", 0⟩ : AppSt).store 10 = [("食費", 100)]) ∧
    ([] : List (String × Nat)) ≠ [("食費", 100)] :=
  ⟨by decide, by decide, by decide⟩

/-- **C6 amended.** Failure atomicity of the manual copy action, as the code
actually behaves: a declined confirm changes nothing; a source-fetch error
or an empty source leaves the stored and in-memory budgets unchanged; a
delete failure leaves them unchanged; but when the delete succeeds and the
final insert fails, the target month's stored budgets are left deleted
(empty) — a partial apply — while other months and the in-memory map are
untouched. -/
theorem copy_budgets_failure_atomicity (env : RolloverEnv) (fuel : Nat)
    (copyFrom target : Int) (s : AppSt) (hne : copyFrom ≠ target) :
    (env.confirmCopy = false → copyBudgetsFromMonth env fuel copyFrom target s = s) ∧
    (env.confirmCopy = true → env.fetchFails copyFrom = true →
      (copyBudgetsFromMonth env fuel copyFrom target s).store = s.store ∧
      (copyBudgetsFromMonth env fuel copyFrom target s).budgets = s.budgets) ∧
    (env.confirmCopy = true → env.fetchFails copyFrom = false → s.store copyFrom = [] →
      (copyBudgetsFromMonth env fuel copyFrom target s).store = s.store ∧
      (copyBudgetsFromMonth env fuel copyFrom target s).budgets = s.budgets) ∧
    (env.confirmCopy = true → env.fetchFails copyFrom = false → s.store copyFrom ≠ [] →
      env.deleteFails = true →
      (copyBudgetsFromMonth env fuel copyFrom target s).store = s.store ∧
      (copyBudgetsFromMonth env fuel copyFrom target s).budgets = s.budgets) ∧
    (env.confirmCopy = true → env.fetchFails copyFrom = false → s.store copyFrom ≠ [] →
      env.deleteFails = false → env.insertFails = true →
      (copyBudgetsFromMonth env fuel copyFrom target s).store target = [] ∧
      (copyBudgetsFromMonth env fuel copyFrom target s).budgets = s.budgets ∧
      (∀ m, m ≠ target →
        (copyBudgetsFromMonth env fuel copyFrom target s).store m = s.store m)) := by
  refine ⟨?_, ?_, ?_, ?_, ?_⟩
  · intro h1
    simp only [copyBudgetsFromMonth]
    rw [if_neg hne, if_pos h1]
  · intro h1 h2
    simp only [copyBudgetsFromMonth]
    rw [if_neg hne, if_neg (by simp [h1]), if_pos (by simp [h2])]
    exact ⟨rfl, rfl⟩
  · intro h1 h2 h3
    simp only [copyBudgetsFromMonth]
    rw [if_neg hne, if_neg (by simp [h1]), if_neg (by simp [h2]),
      if_pos (by simp [h3])]
    exact ⟨rfl, rfl⟩
  · intro h1 h2 h3 h4
    simp only [copyBudgetsFromMonth]
    rw [if_neg hne, if_neg (by simp [h1]), if_neg (by simp [h2]),
      if_neg (by simp [List.length_eq_zero, h3]), if_pos (by simp [h4])]
    exact ⟨rfl, rfl⟩
  · intro h1 h2 h3 h4 h5
    simp only [copyBudgetsFromMonth]
    rw [if_neg hne, if_neg (by simp [h1]), if_neg (by simp [h2]),
      if_neg (by simp [List.length_eq_zero, h3]), if_neg (by simp [h4]),
      if_pos (by simp [h5])]
    exact ⟨by simp, rfl, fun m hm => by simp [hm]⟩

/-- Witness for C6 (amended): the insert-failure clause at the
counterexample's input — the target month ends empty, the in-memory map and
the source month are untouched. -/
theorem copy_budgets_failure_atomicity_witness :
    (copyBudgetsFromMonth ⟨fun _ => false, true, true, true, false, 0⟩ 1 7 10
      ⟨fun m => if m = 10 then [("食費", 100)] else if m = 7 then [("住居", 200)] else [],
        fun _ => none, fun _ => none, "", 0⟩).store 10 = [] ∧
    (copyBudgetsFromMonth ⟨fun _ => false, true, true, true, false, 0⟩ 1 7 10
      ⟨fun m => if m = 10 then [("食費", 100)] else if m = 7 then [("住居", 200)] else [],
        fun _ => none, fun _ => none, "", 0⟩).store 7 = [("住居", 200)] := by
  have h := (copy_budgets_failure_atomicity
    ⟨fun _ => false, true, true, true, false, 0⟩ 1 7 10
    ⟨fun m => if m = 10 then [("食費", 100)] else if m = 7 then [("住居", 200)] else [],
      fun _ => none, fun _ => none, "", 0⟩ (by decide)).2.2.2.2
    (by decide) (by decide) (by decide) (by decide) (by decide)
  refine ⟨h.1, ?_⟩
  rw [h.2.2 7 (by decide)]
  decide

/-! ## Reactive filter corrections -/

/-- `Array.from(new Set(...))`: deduplicate keeping first occurrences. -/
def jsSetDedup (l : List String) : List String :=
  l.foldl (fun acc x => if x ∈ acc then acc else acc ++ [x]) []

/-- `filterCategoryOptions` (App.jsx lines 835-839): the category set
implied by the current type filter. -/
def filterCategoryOptions (cats : List String) (f : Filters) : List String :=
  if f.type = "income" then incomeCategories
  else if f.type = "expense" then cats
  else jsSetDedup (cats ++ incomeCategories)

/-- One run of the filter-correction effect (App.jsx lines 720-730): the
three conditions are evaluated on the state snapshot `f`, the functional
updates chain on the previous result. -/
def correctFiltersOnce (cats : List String) (f : Filters) : Filters :=
  let f1 := if f.type ≠ "expense" ∧ f.purpose ≠ "all" then { f with purpose := "all" } else f
  let f2 :=
    if f.type = "income" ∧ f.category ≠ "all" ∧ f.category ∉ incomeCategories then
      { f1 with category := "all" }
    else f1
  if f.type = "expense" ∧ f.category ≠ "all" ∧ f.category ∉ cats then
    { f2 with category := "all" }
  else f2

/-- **C8 counterexample.** A stable state (one run of the corrections
changes nothing) in which the type filter is "all" and the selected
category ("雑費") is a member of neither the category list nor the income
categories — i.e. not in the implied union set — yet the category filter is
not "all": the effect has no reset clause for type "all". -/
theorem filter_correction_invariant_cex :
    correctFiltersOnce ["食費"] ⟨"all", "all", "雑費", "", "", ""⟩ =
      ⟨"all", "all", "雑費", "", "", ""⟩ ∧
    ("雑費" : String) ∉ filterCategoryOptions ["食費"] ⟨"all", "all", "雑費", "", "", ""⟩ ∧
    (⟨"all", "all", "雑費", "", "", ""⟩ : Filters).category ≠ "all" :=
  ⟨by decide, by decide, by decide⟩

/-- The purpose filter after one correction run. -/
lemma correctFiltersOnce_purpose (cats : List String) (f : Filters) :
    (correctFiltersOnce cats f).purpose =
      if f.type ≠ "expense" ∧ f.purpose ≠ "all" then "all" else f.purpose := by
  unfold correctFiltersOnce
  split_ifs <;> tauto

/-- The category filter after one correction run. -/
lemma correctFiltersOnce_category (cats : List String) (f : Filters) :
    (correctFiltersOnce cats f).category =
      if (f.type = "income" ∧ f.category ≠ "all" ∧ f.category ∉ incomeCategories) ∨
         (f.type = "expense" ∧ f.category ≠ "all" ∧ f.category ∉ cats) then "all"
      else f.category := by
  unfold correctFiltersOnce
  split_ifs <;> tauto

/-- **C8 amended.** In every state stable under the reactive corrections:
if the type filter is not "expense" the purpose filter is pass-all; if the
type filter is "income" the category filter is pass-all or an income
category; if it is "expense" the category filter is pass-all or a member of
the category list.  (When the type filter is "all" the code performs no
category reset, so no constraint holds — see the counterexample.) -/
theorem filter_correction_invariant (cats : List String) (f : Filters)
    (hfix : correctFiltersOnce cats f = f) :
    (f.type ≠ "expense" → f.purpose = "all") ∧
    (f.type = "income" → f.category = "all" ∨ f.category ∈ incomeCategories) ∧
    (f.type = "expense" → f.category = "all" ∨ f.category ∈ cats) := by
  refine ⟨?_, ?_, ?_⟩
  · intro hty
    by_contra hp
    have h1 := congrArg Filters.purpose hfix
    rw [correctFiltersOnce_purpose, if_pos ⟨hty, hp⟩] at h1
    exact hp h1.symm
  · intro hty
    by_contra hc
    rcases not_or.mp hc with ⟨hc1, hc2⟩
    have h1 := congrArg Filters.category hfix
    rw [correctFiltersOnce_category, if_pos (Or.inl ⟨hty, hc1, hc2⟩)] at h1
    exact hc1 h1.symm
  · intro hty
    by_contra hc
    rcases not_or.mp hc with ⟨hc1, hc2⟩
    have h1 := congrArg Filters.category hfix
    rw [correctFiltersOnce_category, if_pos (Or.inr ⟨hty, hc1, hc2⟩)] at h1
    exact hc1 h1.symm

/-- Witness for C8 (amended): a stable income-filter state keeps category
pass-all or an income category. -/
theorem filter_correction_invariant_witness :
    correctFiltersOnce ["食費"] ⟨"income", "all", "労働", "", "", ""⟩ =
      ⟨"income", "all", "労働", "", "", ""⟩ ∧
    ((⟨"income", "all", "労働", "", "", ""⟩ : Filters).category = "all" ∨
      (⟨"income", "all", "労働", "", "", ""⟩ : Filters).category ∈ incomeCategories) :=
  ⟨by decide,
    (filter_correction_invariant ["食費"] ⟨"income", "all", "労働", "", "", ""⟩
      (by decide)).2.1 (by decide)⟩
